import Mathlib

/-
Verification of the TRACES certificate-harvest tool (src/app.py and
src/download_traces.py) against its natural-language specification.

The Python source is shallowly embedded: pure helpers become Lean functions,
the stateful worker becomes explicit state passing, and external effects
(filesystem, browser automation, archiving) become explicit oracle inputs.
Machine strings are modelled over `String`/`List Char`; all character-level
operations are restricted to the ASCII range, which covers every character
the embedded code compares against.
-/

namespace Harvest

/-! Section: Python string primitives

Models of the `str` operations used by the source: `str.strip()` (ASCII
whitespace), `str.lower()` (ASCII case folding), and `str.strip("_")`. -/

/-- Whitespace characters stripped by Python `str.strip()` (ASCII range). -/
def isPySpace (c : Char) : Bool :=
  c = ' ' || c = '\t' || c = '\n' || c = '\r' || c = '\x0b' || c = '\x0c'

/-- Model of Python `value.strip()`: drop leading and trailing whitespace. -/
def pyStrip (s : String) : String :=
  String.mk (((s.data.dropWhile isPySpace).reverse.dropWhile isPySpace).reverse)

/-- Model of Python `value.lower()` (ASCII case folding). -/
def lowerStr (s : String) : String :=
  String.mk (s.data.map Char.toLower)

/-! Section: Input Parser (`download_traces.read_suppliers`, lines 67-92)

The CSV rows are taken after decoding and `csv.reader` tokenisation: each row
is the list of its delimited fields. The skipping logic below is a direct
transcription of the loop body at lines 77-85. -/

/-- Header tokens skipped by `read_suppliers`: line 83 of the source compares
the stripped, lowercased first field against this fixed set. -/
def isHeaderToken (value : String) : Bool :=
  lowerStr value = "supplier" || lowerStr value = "suppliers" ||
    lowerStr value = "name" || lowerStr value = "names"

/-- Row-filtering loop of `read_suppliers` (lines 77-85): skip empty rows,
strip the first field, skip it when blank or a header token, otherwise
append it to the accumulated supplier list. -/
def readSuppliersRows : List (List String) → List String
  | [] => []
  | row :: rest =>
    match row with
    | [] => readSuppliersRows rest
    | v :: _ =>
      let value := pyStrip v
      if value = "" then readSuppliersRows rest
      else if isHeaderToken value then readSuppliersRows rest
      else value :: readSuppliersRows rest

/-! Section: Slugification (`download_traces.slugify`, lines 60-64)

The source applies `re.sub(r"[^\w\-]+", "_", value)` (replace each maximal
run of non-word, non-hyphen characters by one underscore), then
`re.sub(r"_+", "_", value).strip("_")`, then falls back to `"unknown"`.
`\w` is modelled over the ASCII range as alphanumeric-or-underscore. -/

/-- Word characters for the regex class `\w` (ASCII range). -/
def isWordChar (c : Char) : Bool :=
  c.isAlphanum || c = '_'

/-- Characters preserved by the first substitution: word characters and
hyphen (the regex class `[\w\-]`). -/
def keepChar (c : Char) : Bool :=
  isWordChar c || c = '-'

/-- Model of `re.sub(r"[^\w\-]+", "_", value)`: each maximal run of
non-keep characters becomes one underscore. The flag records whether the
scanner is inside such a run (its underscore already emitted). -/
def squashAux : Bool → List Char → List Char
  | _, [] => []
  | inRun, c :: cs =>
    if keepChar c then c :: squashAux false cs
    else if inRun then squashAux true cs
    else '_' :: squashAux true cs

/-- Model of `re.sub(r"_+", "_", value)`: each maximal run of underscores
becomes one underscore. The flag records whether the previous character
was an underscore. -/
def collapseAux : Bool → List Char → List Char
  | _, [] => []
  | prevU, c :: cs =>
    if c = '_' then
      if prevU then collapseAux true cs else '_' :: collapseAux true cs
    else c :: collapseAux false cs

/-- Model of Python `value.strip("_")`. -/
def stripUnderscoreEnds (l : List Char) : List Char :=
  ((l.dropWhile (fun c => c = '_')).reverse.dropWhile (fun c => c = '_')).reverse

/-- Model of `slugify` (lines 60-64): strip, lowercase, replace runs of
non-word/non-hyphen characters by single underscores, collapse underscore
runs, strip boundary underscores, and fall back to `"unknown"`. -/
def slugify (s : String) : String :=
  let lowered := lowerStr (pyStrip s)
  let squashed := squashAux false lowered.data
  let core := stripUnderscoreEnds (collapseAux false squashed)
  if core = [] then "unknown" else String.mk core

/-- Specification-level reading of the slugification rule: every single
character that is neither a word character nor a hyphen is rewritten to an
underscore, and the underscore-collapsing pass then merges each such run
(together with any adjacent literal underscores) into one underscore. The
remaining steps are shared with the implementation. -/
def slugify_spec (s : String) : String :=
  let lowered := lowerStr (pyStrip s)
  let replaced := lowered.data.map (fun c => if keepChar c then c else '_')
  let core := stripUnderscoreEnds (collapseAux false replaced)
  if core = [] then "unknown" else String.mk core

/-! Section: Per-item outcomes and the harvest worker loop

`download_traces.run` (lines 232-278) drives `download_pdf_for_supplier`
over the supplier list. One invocation of the per-item retrieval is
embedded as an oracle `ItemStep`: its four-way outcome follows the branch
structure of the loop body at lines 260-270 (`True` return, `False`
return, `PWTimeoutError`, any other exception), and `createsDir` records
whether the attempt reached the `out_dir.mkdir` call at line 220 (any
`True` return did, since `save_as` runs after it). Cancellation is the
monotone flag read by `should_cancel`; it is embedded as a Boolean stream
indexed by the number of previous `should_cancel` invocations. -/

/-- Four-way result of one per-item retrieval, following the branches of
the loop body (lines 260-270). -/
inductive Outcome where
  | downloaded
  | notFound
  | timedOut
  | failed (reason : String)
deriving DecidableEq

/-- Retrieval succeeded: the branch that increments `ok` (line 262). -/
def outcomeOk : Outcome → Bool
  | Outcome.downloaded => true
  | _ => false

/-- Log line emitted for one outcome (lines 264-270). -/
def outcomeLine : Outcome → String
  | Outcome.downloaded => "  -> downloaded"
  | Outcome.notFound => "  -> not found"
  | Outcome.timedOut => "  -> timeout"
  | Outcome.failed r => "  -> error: " ++ r

/-- Oracle for one `download_pdf_for_supplier` invocation. -/
structure ItemStep where
  outcome : Outcome
  createsDir : Bool
deriving DecidableEq

/-- Progress snapshot `(current, total, ok)` as reported through
`on_progress` (line 272) and stored by `update_job` (app.py line 189). -/
structure Snap where
  current : Nat
  total : Nat
  ok : Nat
deriving DecidableEq

/-- State threaded through the loop of `run`: counters, whether
`out_dir` has been created on disk, the number of `should_cancel`
invocations so far, the emitted log lines, and the emitted progress
updates. -/
structure RunState where
  current : Nat
  ok : Nat
  dirExists : Bool
  calls : Nat
  logs : List String
  progress : List Snap
deriving DecidableEq

/-- Log line `f"[{i}/{total}] {supplier}"` (line 259). -/
def itemHeader (i total : Nat) (supplier : String) : String :=
  "[" ++ toString i ++ "/" ++ toString total ++ "] " ++ supplier

/-- Log line `f"Done. Downloaded {ok} of {total}."` (line 276). -/
def doneLine (ok total : Nat) : String :=
  "Done. Downloaded " ++ toString ok ++ " of " ++ toString total ++ "."

/-- The `for` loop of `run` (lines 255-274): check cancellation at the top
of each iteration (breaking with a `"  -> cancelled"` log line), log the
item header, resolve the item through its oracle, update `ok`, and report
`(i, total, ok)` through `on_progress`. The inter-item `time.sleep` has no
observable effect on job state and is not represented. -/
def runLoop (total : Nat) (cancel : Nat → Bool) :
    List (String × ItemStep) → RunState → RunState
  | [], st => st
  | (supplier, step) :: rest, st =>
    if cancel st.calls then
      { st with calls := st.calls + 1, logs := st.logs ++ ["  -> cancelled"] }
    else
      let i := st.current + 1
      let ok2 := st.ok + (if outcomeOk step.outcome then 1 else 0)
      runLoop total cancel rest
        { current := i
          ok := ok2
          dirExists := st.dirExists || step.createsDir
          calls := st.calls + 1
          logs := st.logs ++ [itemHeader i total supplier, outcomeLine step.outcome]
          progress := st.progress ++ [⟨i, total, ok2⟩] }

/-- Initial loop state: counters zero, `out_dir` not yet created (the job
directory is freshly created per job, app.py lines 145-161). -/
def initRunState : RunState := ⟨0, 0, false, 0, [], []⟩

/-- Model of `run` (lines 232-278): execute the loop over the supplier
list and append the final summary log line. -/
def runModel (items : List (String × ItemStep)) (cancel : Nat → Bool) : RunState :=
  let st := runLoop items.length cancel items initRunState
  { st with logs := st.logs ++ [doneLine st.ok items.length] }

/-- Job lifecycle status (app.py job dictionary `status` field). -/
inductive Status where
  | running
  | done
  | error
  | cancelled
deriving DecidableEq

/-- Terminal job record produced by the worker thread. -/
structure JobFinal where
  status : Status
  current : Nat
  total : Nat
  ok : Nat
  errorMsg : Option String
  logs : List String
deriving DecidableEq

/-- Model of the worker body (app.py lines 176-221). `archive` is the
oracle for `create_zip_file`: `none` for success, `some msg` for an
exception with message `msg` (caught at line 219). The terminal decision
follows the source order: empty supplier list (line 179), missing
`out_dir` (line 210), pending cancellation (line 214), then archiving. -/
def workerModel (items : List (String × ItemStep)) (cancel : Nat → Bool)
    (archive : Option String) : JobFinal :=
  if items.isEmpty then
    { status := Status.error, current := 0, total := 0, ok := 0
      errorMsg := some "No suppliers found in the CSV.", logs := [] }
  else
    let st := runModel items cancel
    if st.dirExists = false then
      { status := Status.error, current := st.current, total := items.length
        ok := st.ok, errorMsg := some "No downloads were created.", logs := st.logs }
    else if cancel st.calls then
      { status := Status.cancelled, current := st.current, total := items.length
        ok := st.ok, errorMsg := none, logs := st.logs }
    else
      match archive with
      | none =>
        { status := Status.done, current := st.current, total := items.length
          ok := st.ok, errorMsg := none, logs := st.logs }
      | some msg =>
        { status := Status.error, current := st.current, total := items.length
          ok := st.ok, errorMsg := some msg, logs := st.logs }

/-- Observable counter snapshots of one job, in order: the initial record
(app.py lines 165-174), the `total` update (line 183), then every
`on_progress` update. An empty supplier list transitions to `error`
before `total` is ever written. -/
def jobSnapshots (items : List (String × ItemStep)) (cancel : Nat → Bool) : List Snap :=
  if items.isEmpty then [⟨0, 0, 0⟩]
  else ⟨0, 0, 0⟩ :: ⟨0, items.length, 0⟩ :: (runModel items cancel).progress

/-! Section: Closed forms for the loop under no cancellation -/

/-- Number of successful retrievals in an item list. -/
def countOk (items : List (String × ItemStep)) : Nat :=
  items.countP (fun p => outcomeOk p.2.outcome)

/-- Expected log lines of an uncancelled loop run starting at position
`i`: a header line and an outcome line per item. -/
def itemLines (total : Nat) : Nat → List (String × ItemStep) → List String
  | _, [] => []
  | i, (supplier, step) :: rest =>
    itemHeader i total supplier :: outcomeLine step.outcome ::
      itemLines total (i + 1) rest

/-- Expected progress updates of an uncancelled loop run starting after
position `i` with success count `ok`. -/
def progSeq (total : Nat) : Nat → Nat → List (String × ItemStep) → List Snap
  | _, _, [] => []
  | i, ok, (_, step) :: rest =>
    let ok2 := ok + (if outcomeOk step.outcome then 1 else 0)
    ⟨i + 1, total, ok2⟩ :: progSeq total (i + 1) ok2 rest

/-! Section: Job Registry reaper (`app.cleanup_runs`, lines 89-114)

Only the registry phase (lines 103-114) is modelled: a job is paired with
the result of `zip_path.stat().st_mtime` — `none` when `stat` raises
`OSError` (file disappeared), `some m` otherwise. -/

/-- Staleness test of `cleanup_runs` lines 106-111: an `OSError` turns the
modification time into `0`, and `if mtime and mtime < cutoff` marks the
entry stale only when the time is nonzero and older than the cutoff. -/
def staleCheck (cutoff : Nat) (zipStat : Option Nat) : Bool :=
  let mtime := zipStat.getD 0
  decide (mtime ≠ 0) && decide (mtime < cutoff)

/-- Registry phase of `cleanup_runs`: evict exactly the entries marked
stale (collecting `stale_ids` and popping them keeps the rest in order,
which the filter reproduces). -/
def cleanupJobs (cutoff : Nat) (jobs : List (String × Option Nat)) :
    List (String × Option Nat) :=
  jobs.filter (fun j => !staleCheck cutoff j.2)

/-! Section: Result Archiver (`app.create_zip_file`, lines 39-43)

The directory tree is embedded as the listing that `source_dir.rglob("*")`
yields: every descendant path (given by its parts relative to
`source_dir`) together with its `is_file()` flag. `sorted` on `Path`
objects compares the tuples of path parts, i.e. lexicographically over
part strings; the string comparison is embedded character by character
over code points, which kernel-evaluates. -/

/-- Strict comparison of two characters by code point. -/
def charLt (c d : Char) : Bool := decide (c.toNat < d.toNat)

/-- Strict lexicographic extension of a strict element comparison to
lists; this is how Python compares both strings and tuples of path
parts. -/
def lexLt (lt : α → α → Bool) : List α → List α → Bool
  | [], [] => false
  | [], _ :: _ => true
  | _ :: _, [] => false
  | a :: as, b :: bs =>
    if lt a b then true
    else if lt b a then false
    else lexLt lt as bs

/-- Strict comparison of path-part strings, character by character. -/
def strLt (s t : String) : Bool := lexLt charLt s.data t.data

/-- Strict lexicographic comparison of paths (lists of parts). -/
def pathLt (p q : List String) : Bool := lexLt strLt p q

/-- Non-strict path order used for sorting: `p ≤ q` iff not `q < p`. -/
def pathLe (p q : List String) : Bool := !pathLt q p

/-- One entry of the recursive directory listing. -/
structure FsEntry where
  path : List String
  isFile : Bool
deriving DecidableEq

/-- Sorting relation of `sorted(source_dir.rglob("*"))`: entries compare
by their path. -/
def zipOrder (a b : FsEntry) : Prop := pathLe a.path b.path = true

instance : DecidableRel zipOrder := fun a b =>
  inferInstanceAs (Decidable (pathLe a.path b.path = true))

/-- Model of `create_zip_file` (lines 39-43): sort the recursive listing,
keep the regular files, and record each one's relative path as its archive
entry name. (A real listing never repeats a path, so any sort agrees with
Python's stable `sorted` here.) -/
def create_zip_file (entries : List FsEntry) : List (List String) :=
  ((entries.insertionSort zipOrder).filter (fun e => e.isFile)).map
    (fun e => e.path)

/-! Section: Cancellation endpoint (`app.cancel`, lines 236-246)

The registry is embedded as a partial map from job identifiers to job
records (the `JOBS` dictionary read and written under `JOBS_LOCK`). -/

/-- Job record fields touched by the cancellation endpoint. -/
structure JobRec where
  status : Status
  cancel : Bool
  current : Nat
  total : Nat
  ok : Nat
deriving DecidableEq

/-- Response of the cancellation endpoint: 404 for an unknown job, 400
echoing the job status for a non-running job, or the `"cancelling"`
acknowledgement. -/
inductive CancelResp where
  | missing
  | conflict (status : Status)
  | ack
deriving DecidableEq

/-- Model of the `cancel` route (lines 236-246): look the job up, reject
unknown and non-running jobs without touching the registry, otherwise flip
the job's `cancel` flag and acknowledge. -/
def cancelEndpoint (jobs : String → Option JobRec) (jobId : String) :
    (String → Option JobRec) × CancelResp :=
  match jobs jobId with
  | none => (jobs, CancelResp.missing)
  | some j =>
    if j.status ≠ Status.running then (jobs, CancelResp.conflict j.status)
    else
      (fun k => if k = jobId then some { j with cancel := true } else jobs k,
        CancelResp.ack)

/-! Section: Encoding fallback of `read_suppliers` (lines 72-91)

The four encodings are tried in order; the first successful decode is
tokenised and the result returned, and the final `raise last_error` is
reached only if every attempt failed with a `UnicodeDecodeError`. The
`utf-8-sig`, `utf-8` and `cp1252` codecs are external collaborators and
enter the model as arbitrary partial decoders; `latin-1` is embedded
concretely: it maps each byte `b` to the character with code point `b`,
hence never fails. `csv.reader` is embedded as newline/comma splitting
(no quoting is exercised by the inputs the parser contract concerns)
together with its field-size check: a field longer than
`csv.field_size_limit()` (default 131072) raises `csv.Error`, which
`read_suppliers` does not catch (only `UnicodeDecodeError` is, line 87),
so it escapes the function. -/

/-- A two-item list whose retrievals both succeed. -/
def itemsAllOk : List (String × ItemStep) :=
  [("Acme", ⟨Outcome.downloaded, true⟩), ("Beta", ⟨Outcome.downloaded, true⟩)]

/-- A four-item list exercising every non-fatal outcome. -/
def itemsMixed : List (String × ItemStep) :=
  [("Acme", ⟨Outcome.notFound, false⟩),
   ("Beta", ⟨Outcome.timedOut, false⟩),
   ("Gamma", ⟨Outcome.failed "boom", false⟩),
   ("Delta", ⟨Outcome.downloaded, true⟩)]

/-- A registry holding one running and one finished job. -/
def jobsTwo : String → Option JobRec := fun k =>
  if k = "jobA" then some ⟨Status.running, false, 2, 5, 1⟩
  else if k = "jobB" then some ⟨Status.done, false, 5, 5, 4⟩
  else none

/-- C5: over every tokenised input, `read_suppliers` returns exactly the
stripped first fields of the rows, in input order, skipping blank first
fields and header tokens; a `"Supplier"` header followed by three names
yields those three names in order, and duplicates are preserved. -/
theorem c5_first_fields (rows : List (List String)) :
    readSuppliersRows rows =
      rows.filterMap (fun row =>
        row.head?.bind (fun v =>
          let value := pyStrip v
          if value ≠ "" ∧ isHeaderToken value = false then some value else none)) ∧
    readSuppliersRows [["Supplier"], ["Acme GmbH"], ["Beta Farms", "extra"],
        ["Crete Olive Co"]] = ["Acme GmbH", "Beta Farms", "Crete Olive Co"] ∧
    readSuppliersRows [["Dup"], ["Dup"]] = ["Dup", "Dup"] := by
  refine ⟨?_, by decide, by decide⟩
  induction rows with
  | nil => rfl
  | cons row rest ih =>
    cases row with
    | nil => simpa [readSuppliersRows] using ih
    | cons v vs =>
      by_cases h1 : pyStrip v = ""
      · simp [readSuppliersRows, h1, ih]
      · by_cases h2 : isHeaderToken (pyStrip v) = true
        · simp [readSuppliersRows, h1, h2, ih]
        · simp [readSuppliersRows, h1, h2, ih]

/-! Section: Claim C10: the decode fallback and the uncaught csv error -/

/-- C6 counterexample: a registry entry whose archive file has
disappeared (its `stat` raises `OSError`, modelled as `none`) survives the
reaper pass, contradicting the claim that it is evicted. -/
theorem c6_reaper_counterexample :
    ("job1", (none : Option Nat)) ∈ cleanupJobs 100 [("job1", none)] ∧
    cleanupJobs 100 [("job1", (none : Option Nat))] = [("job1", none)] := by
  decide

/-- C6 (amended): the reaper evicts exactly the entries whose archive
`stat` succeeds with a nonzero modification time older than the cutoff;
entries whose archive has disappeared (failed `stat`) are skipped and
remain registered, as do entries at or past the cutoff. -/
theorem c6_reaper_amended (cutoff : Nat) (jobs : List (String × Option Nat)) :
    (∀ jobId m, m ≠ 0 → m < cutoff → (jobId, some m) ∉ cleanupJobs cutoff jobs) ∧
    (∀ jobId, (jobId, (none : Option Nat)) ∈ jobs →
      (jobId, (none : Option Nat)) ∈ cleanupJobs cutoff jobs) ∧
    (∀ jobId m, (jobId, some m) ∈ jobs → (m = 0 ∨ cutoff ≤ m) →
      (jobId, some m) ∈ cleanupJobs cutoff jobs) := by
  refine ⟨?_, ?_, ?_⟩
  · intro jobId m hm hlt hmem
    rw [cleanupJobs, List.mem_filter] at hmem
    simp [staleCheck, hm, hlt] at hmem
  · intro jobId hmem
    rw [cleanupJobs, List.mem_filter]
    exact ⟨hmem, by simp [staleCheck]⟩
  · intro jobId m hmem hcond
    rw [cleanupJobs, List.mem_filter]
    refine ⟨hmem, ?_⟩
    rcases hcond with h | h
    · simp [staleCheck, h]
    · simp [staleCheck, Nat.not_lt.mpr h]

/-- C6 witness: on a registry with one stale, one disappeared and one
fresh archive, the reaper evicts exactly the stale entry. -/
theorem c6_reaper_amended_witness :
    ("old", some 5) ∉
      cleanupJobs 100 [("old", some 5), ("gone", (none : Option Nat)), ("fresh", some 200)] ∧
    ("gone", (none : Option Nat)) ∈
      cleanupJobs 100 [("old", some 5), ("gone", (none : Option Nat)), ("fresh", some 200)] ∧
    ("fresh", some 200) ∈
      cleanupJobs 100 [("old", some 5), ("gone", (none : Option Nat)), ("fresh", some 200)] := by
  have h := c6_reaper_amended 100
    [("old", some 5), ("gone", (none : Option Nat)), ("fresh", some 200)]
  exact ⟨h.1 "old" 5 (by decide) (by decide), h.2.1 "gone" (by decide),
    h.2.2 "fresh" 200 (by decide) (Or.inr (by decide))⟩

/-! Section: Claim C9: the cancellation endpoint -/

/-- C9: cancelling an unknown job reports `missing` and leaves the
registry untouched; cancelling a non-running job reports a conflict with
the job's status and changes nothing; cancelling a running job
acknowledges, flips exactly that job's `cancel` flag, keeps its other
fields, and leaves every other job unchanged. -/
theorem c9_cancel_endpoint (jobs : String → Option JobRec) (jobId : String) :
    (jobs jobId = none → cancelEndpoint jobs jobId = (jobs, CancelResp.missing)) ∧
    (∀ j, jobs jobId = some j → j.status ≠ Status.running →
      cancelEndpoint jobs jobId = (jobs, CancelResp.conflict j.status)) ∧
    (∀ j, jobs jobId = some j → j.status = Status.running →
      (cancelEndpoint jobs jobId).2 = CancelResp.ack ∧
      (cancelEndpoint jobs jobId).1 jobId = some { j with cancel := true } ∧
      (∀ k, k ≠ jobId → (cancelEndpoint jobs jobId).1 k = jobs k)) := by
  refine ⟨?_, ?_, ?_⟩
  · intro h
    simp [cancelEndpoint, h]
  · intro j hj hs
    simp [cancelEndpoint, hj, hs]
  · intro j hj hs
    refine ⟨?_, ?_, ?_⟩
    · simp [cancelEndpoint, hj, hs]
    · simp [cancelEndpoint, hj, hs]
    · intro k hk
      simp [cancelEndpoint, hj, hs, hk]

/-- C9 witness: on `jobsTwo`, cancelling the running job acknowledges and
flips its flag, cancelling the finished job reports a conflict, and an
unknown identifier reports `missing`. -/
theorem c9_cancel_endpoint_witness :
    (cancelEndpoint jobsTwo "jobA").2 = CancelResp.ack ∧
    (cancelEndpoint jobsTwo "jobA").1 "jobA" = some ⟨Status.running, true, 2, 5, 1⟩ ∧
    (cancelEndpoint jobsTwo "jobB").2 = CancelResp.conflict Status.done ∧
    (cancelEndpoint jobsTwo "nope").2 = CancelResp.missing := by
  have hA := (c9_cancel_endpoint jobsTwo "jobA").2.2 ⟨Status.running, false, 2, 5, 1⟩
    (by decide) rfl
  have hB := (c9_cancel_endpoint jobsTwo "jobB").2.1 ⟨Status.done, false, 5, 5, 4⟩
    (by decide) (by decide)
  have hM := (c9_cancel_endpoint jobsTwo "nope").1 (by decide)
  exact ⟨hA.1, hA.2.1, by rw [hB], by rw [hM]⟩

/-! Section: Loop lemmas shared between the worker claims -/

/-- Closed form of the worker loop when cancellation is never observed:
every item is processed, the counters advance item by item, and the log
and progress streams are exactly the per-item sequences. -/
theorem runLoop_noCancel (total : Nat) (cancel : Nat → Bool)
    (hc : ∀ i, cancel i = false) (l : List (String × ItemStep)) :
    ∀ st : RunState,
      runLoop total cancel l st =
        { current := st.current + l.length
          ok := st.ok + countOk l
          dirExists := st.dirExists || l.any (fun p => p.2.createsDir)
          calls := st.calls + l.length
          logs := st.logs ++ itemLines total (st.current + 1) l
          progress := st.progress ++ progSeq total st.current st.ok l } := by
  induction l with
  | nil =>
    intro st
    simp [runLoop, countOk, itemLines, progSeq]
  | cons p rest ih =>
    intro st
    obtain ⟨supplier, step⟩ := p
    rw [runLoop]
    simp only [hc st.calls, Bool.false_eq_true, if_false]
    rw [ih]
    simp only [RunState.mk.injEq, List.length_cons, countOk, List.countP_cons,
      List.any_cons, itemLines, progSeq, List.append_assoc, List.cons_append,
      List.nil_append, Bool.or_assoc, true_and, and_true]
    omega

/-- Field-level closed form of `run` when cancellation never triggers. -/
theorem runModel_noCancel (items : List (String × ItemStep)) (cancel : Nat → Bool)
    (hc : ∀ i, cancel i = false) :
    runModel items cancel =
      { current := items.length
        ok := countOk items
        dirExists := items.any (fun p => p.2.createsDir)
        calls := items.length
        logs := itemLines items.length 1 items ++ [doneLine (countOk items) items.length]
        progress := progSeq items.length 0 0 items } := by
  rw [runModel, runLoop_noCancel items.length cancel hc items initRunState]
  simp [initRunState]

/-! Section: Claim C1: terminal transition order of the worker -/

/-- C1 counterexample: a one-identifier job cancelled before its loop
starts ends in `error`, not `cancelled` — the worker checks the output
directory (never created, since no retrieval ran) before it checks
cancellation. -/
theorem c1_terminal_counterexample :
    (workerModel [("Acme", ⟨Outcome.notFound, false⟩)] (fun _ => true) none).status =
      Status.error ∧
    Status.error ≠ Status.cancelled := by
  decide

/-- C1 (amended): after the loop the worker decides its terminal
transition in this order — missing output directory gives `error`, then a
pending cancellation gives `cancelled`, then archiving gives `done` on
success and `error` on failure; an empty identifier list gives `error`
before the loop, and cancelling before the loop starts gives `error`
(with `current = 0 < total`), because the output directory was never
created. -/
theorem c1_terminal_transition (items : List (String × ItemStep)) (cancel : Nat → Bool)
    (archive : Option String) :
    (items = [] → (workerModel items cancel archive).status = Status.error) ∧
    (items ≠ [] → (runModel items cancel).dirExists = false →
      (workerModel items cancel archive).status = Status.error) ∧
    (items ≠ [] → (runModel items cancel).dirExists = true →
      cancel (runModel items cancel).calls = true →
      (workerModel items cancel archive).status = Status.cancelled) ∧
    (items ≠ [] → (runModel items cancel).dirExists = true →
      cancel (runModel items cancel).calls = false → archive = none →
      (workerModel items cancel archive).status = Status.done) ∧
    (items ≠ [] → (runModel items cancel).dirExists = true →
      cancel (runModel items cancel).calls = false → ∀ msg, archive = some msg →
      (workerModel items cancel archive).status = Status.error ∧
      (workerModel items cancel archive).errorMsg = some msg) ∧
    (items ≠ [] → cancel 0 = true →
      (workerModel items cancel archive).status = Status.error ∧
      (workerModel items cancel archive).current = 0 ∧
      (workerModel items cancel archive).current <
        (workerModel items cancel archive).total) := by
  refine ⟨?_, ?_, ?_, ?_, ?_, ?_⟩
  · intro h
    subst h
    simp [workerModel]
  · intro hne hdir
    have hemp : items.isEmpty = false := by
      cases items with
      | nil => exact absurd rfl hne
      | cons a l => rfl
    simp [workerModel, hemp, hdir]
  · intro hne hdir hcan
    have hemp : items.isEmpty = false := by
      cases items with
      | nil => exact absurd rfl hne
      | cons a l => rfl
    simp [workerModel, hemp, hdir, hcan]
  · intro hne hdir hcan harch
    subst harch
    have hemp : items.isEmpty = false := by
      cases items with
      | nil => exact absurd rfl hne
      | cons a l => rfl
    simp [workerModel, hemp, hdir, hcan]
  · intro hne hdir hcan msg harch
    subst harch
    have hemp : items.isEmpty = false := by
      cases items with
      | nil => exact absurd rfl hne
      | cons a l => rfl
    simp [workerModel, hemp, hdir, hcan]
  · intro hne h0
    cases items with
    | nil => exact absurd rfl hne
    | cons a rest =>
      simp [workerModel, runModel, runLoop, h0, initRunState]

/-- C1 witness: a successful uncancelled one-item job instantiates the
`done` branch of the amended terminal order. -/
theorem c1_terminal_transition_witness :
    (workerModel [("Acme", ⟨Outcome.downloaded, true⟩)] (fun _ => false) none).status =
      Status.done := by
  have h := c1_terminal_transition [("Acme", ⟨Outcome.downloaded, true⟩)]
    (fun _ => false) none
  exact h.2.2.2.1 (by decide) (by decide) rfl rfl

/-! Section: Claim C2: all retrievals succeed, no cancellation -/

/-- C2: a non-empty job whose retrievals all succeed (each attempt also
creates the output directory, as any successful save does), with no
cancellation and successful archiving, terminates `done` with
`current = total = ok = N`. -/
theorem c2_all_success (items : List (String × ItemStep)) (cancel : Nat → Bool)
    (hne : items ≠ [])
    (hdl : ∀ p ∈ items, p.2.outcome = Outcome.downloaded)
    (hdir : ∀ p ∈ items, p.2.createsDir = true)
    (hc : ∀ i, cancel i = false) :
    (workerModel items cancel none).status = Status.done ∧
    (workerModel items cancel none).current = items.length ∧
    (workerModel items cancel none).total = items.length ∧
    (workerModel items cancel none).ok = items.length := by
  have hrm := runModel_noCancel items cancel hc
  have hcount : countOk items = items.length := by
    rw [countOk, List.countP_eq_length]
    intro p hp
    simp [outcomeOk, hdl p hp]
  have hany : items.any (fun p => p.2.createsDir) = true := by
    rw [List.any_eq_true]
    obtain ⟨p, hp⟩ := List.exists_mem_of_ne_nil items hne
    exact ⟨p, hp, hdir p hp⟩
  have hemp : items.isEmpty = false := by
    cases items with
    | nil => exact absurd rfl hne
    | cons a l => rfl
  simp [workerModel, hemp, hrm, hany, hcount, hc]

/-- C2 witness: two successful retrievals end `done` with all counters at
2. -/
theorem c2_all_success_witness :
    (workerModel itemsAllOk (fun _ => false) none).status = Status.done ∧
    (workerModel itemsAllOk (fun _ => false) none).current = 2 ∧
    (workerModel itemsAllOk (fun _ => false) none).total = 2 ∧
    (workerModel itemsAllOk (fun _ => false) none).ok = 2 :=
  c2_all_success itemsAllOk (fun _ => false) (by decide) (by decide) (by decide)
    (fun _ => rfl)

/-! Section: Claim C3: counter invariants and monotonicity -/

/-- Invariant propagation through the worker loop, for an arbitrary
cancellation stream: every emitted progress snapshot satisfies
`ok ≤ current ≤ total`, and consecutive snapshots never decrease either
counter. -/
theorem runLoop_progress_inv (total : Nat) (cancel : Nat → Bool) :
    ∀ (l : List (String × ItemStep)) (st : RunState),
      st.ok ≤ st.current →
      st.current + l.length ≤ total →
      (∀ s ∈ st.progress, s.ok ≤ s.current ∧ s.current ≤ s.total) →
      st.progress.Chain' (fun a b => a.current ≤ b.current ∧ a.ok ≤ b.ok) →
      (∀ s ∈ st.progress.getLast?, s.current ≤ st.current ∧ s.ok ≤ st.ok) →
      (∀ s ∈ (runLoop total cancel l st).progress,
          s.ok ≤ s.current ∧ s.current ≤ s.total) ∧
      (runLoop total cancel l st).progress.Chain'
        (fun a b => a.current ≤ b.current ∧ a.ok ≤ b.ok) := by
  intro l
  induction l with
  | nil =>
    intro st _ _ hall hchain _
    exact ⟨hall, hchain⟩
  | cons p rest ih =>
    intro st hok hlen hall hchain hlast
    obtain ⟨supplier, step⟩ := p
    rw [runLoop]
    by_cases hcan : cancel st.calls = true
    · simp only [hcan, if_true]
      exact ⟨hall, hchain⟩
    · simp only [Bool.not_eq_true] at hcan
      simp only [hcan, Bool.false_eq_true, if_false]
      have hd : (if outcomeOk step.outcome then 1 else 0) ≤ 1 := by
        cases outcomeOk step.outcome <;> simp
      refine ih _ ?_ ?_ ?_ ?_ ?_
      · dsimp only
        omega
      · simp only [List.length_cons] at hlen
        dsimp only
        omega
      · intro s hs
        simp only [List.mem_append, List.mem_singleton] at hs
        rcases hs with hs | hs
        · exact hall s hs
        · subst hs
          simp only [List.length_cons] at hlen
          dsimp only
          constructor
          · omega
          · omega
      · rw [List.chain'_append]
        refine ⟨hchain, List.chain'_singleton _, ?_⟩
        intro x hx y hy
        simp only [List.head?_cons, Option.mem_def, Option.some.injEq] at hy
        subst hy
        have := hlast x hx
        dsimp only
        constructor
        · omega
        · omega
      · intro s hs
        rw [List.getLast?_concat] at hs
        simp only [Option.mem_def, Option.some.injEq] at hs
        subst hs
        dsimp only
        omega

/-- C3: every observable snapshot of a job (initial record, the `total`
update, then each progress update) satisfies `0 ≤ ok ≤ current ≤ total`,
and consecutive snapshots are monotonically non-decreasing in `current`
and `ok`. -/
theorem c3_snapshot_invariants (items : List (String × ItemStep)) (cancel : Nat → Bool) :
    (∀ s ∈ jobSnapshots items cancel,
        0 ≤ s.ok ∧ s.ok ≤ s.current ∧ s.current ≤ s.total) ∧
    (jobSnapshots items cancel).Chain' (fun a b => a.current ≤ b.current ∧ a.ok ≤ b.ok) := by
  have hbase := runLoop_progress_inv items.length cancel items initRunState
    (Nat.le_refl 0) (by simp [initRunState]) (by simp [initRunState])
    (by simp [initRunState]) (by simp [initRunState])
  have hprog : (runModel items cancel).progress =
      (runLoop items.length cancel items initRunState).progress := rfl
  by_cases hemp : items.isEmpty = true
  · rw [jobSnapshots, if_pos hemp]
    refine ⟨?_, ?_⟩
    · intro s hs
      simp only [List.mem_singleton] at hs
      subst hs
      exact ⟨Nat.le_refl 0, Nat.le_refl 0, Nat.le_refl 0⟩
    · exact List.chain'_singleton _
  · rw [jobSnapshots, if_neg hemp]
    refine ⟨?_, ?_⟩
    · intro s hs
      simp only [List.mem_cons] at hs
      rcases hs with hs | hs | hs
      · subst hs
        exact ⟨Nat.le_refl 0, Nat.le_refl 0, Nat.le_refl 0⟩
      · subst hs
        exact ⟨Nat.le_refl 0, Nat.le_refl 0, Nat.zero_le _⟩
      · rw [hprog] at hs
        have h := hbase.1 s hs
        exact ⟨Nat.zero_le _, h.1, h.2⟩
    · rw [List.chain'_cons']
      refine ⟨?_, ?_⟩
      · intro b _
        exact ⟨Nat.zero_le _, Nat.zero_le _⟩
      · rw [List.chain'_cons']
        refine ⟨?_, ?_⟩
        · intro b _
          exact ⟨Nat.zero_le _, Nat.zero_le _⟩
        · rw [hprog]
          exact hbase.2

/-! Section: Claim C4: per-item outcomes are non-fatal -/

/-- C4: with no cancellation, the loop reaches every identifier no matter
which outcomes (not-found, timeout, failure, success) the retrievals
produce: `current` reaches `N`, `ok` counts exactly the successes, and
the log holds the position header plus the outcome's mapped line
(`downloaded` / `not found` / `timeout` / `error: …`) for every item in
order, followed by the summary line. No outcome aborts the loop. -/
theorem c4_outcomes_nonfatal (items : List (String × ItemStep)) (cancel : Nat → Bool)
    (hc : ∀ i, cancel i = false) :
    (runModel items cancel).current = items.length ∧
    (runModel items cancel).ok = countOk items ∧
    (runModel items cancel).logs =
      itemLines items.length 1 items ++ [doneLine (countOk items) items.length] := by
  rw [runModel_noCancel items cancel hc]
  exact ⟨rfl, rfl, rfl⟩

/-- C4 witness: the four-outcome list is fully processed with `ok = 1`
and the expected log lines. -/
theorem c4_outcomes_nonfatal_witness :
    (runModel itemsMixed (fun _ => false)).current = 4 ∧
    (runModel itemsMixed (fun _ => false)).ok = 1 ∧
    (runModel itemsMixed (fun _ => false)).logs =
      ["[1/4] Acme", "  -> not found",
       "[2/4] Beta", "  -> timeout",
       "[3/4] Gamma", "  -> error: boom",
       "[4/4] Delta", "  -> downloaded",
       "Done. Downloaded 1 of 4."] := by
  have h := c4_outcomes_nonfatal itemsMixed (fun _ => false) (fun _ => rfl)
  refine ⟨h.1, ?_, ?_⟩
  · rw [h.2.1]
    decide
  · rw [h.2.2]
    decide

/-! Section: Order lemmas for the archiver's path comparison -/

/-- A character never compares strictly below itself. -/
theorem charLt_irrefl (c : Char) : charLt c c = false := by
  simp [charLt]

/-- Strict character comparison is transitive. -/
theorem charLt_trans (a b c : Char) :
    charLt a b = true → charLt b c = true → charLt a c = true := by
  simp only [charLt, decide_eq_true_eq]
  omega

/-- Characters that compare strictly below each other in neither
direction are equal. -/
theorem charLt_conn (a b : Char) :
    charLt a b = false → charLt b a = false → a = b := by
  intro h1 h2
  simp only [charLt, decide_eq_false_iff_not, Nat.not_lt] at h1 h2
  exact Char.ext (UInt32.toNat.inj (Nat.le_antisymm h2 h1))

/-- Lexicographic irreflexivity, inherited from the element comparison. -/
theorem lexLt_irrefl (lt : α → α → Bool) (h : ∀ a, lt a a = false) :
    ∀ l, lexLt lt l l = false
  | [] => rfl
  | a :: as => by
    rw [lexLt]
    simp [h a, lexLt_irrefl lt h as]

/-- Lexicographic connectivity: lists below each other in neither
direction are equal, given the same property of the elements. -/
theorem lexLt_conn (lt : α → α → Bool)
    (hconn : ∀ a b, lt a b = false → lt b a = false → a = b) :
    ∀ l1 l2, lexLt lt l1 l2 = false → lexLt lt l2 l1 = false → l1 = l2
  | [], [], _, _ => rfl
  | [], _ :: _, h1, _ => by simp [lexLt] at h1
  | _ :: _, [], _, h2 => by simp [lexLt] at h2
  | a :: as, b :: bs, h1, h2 => by
    by_cases hab : lt a b = true
    · rw [lexLt] at h1
      simp [hab] at h1
    · by_cases hba : lt b a = true
      · rw [lexLt] at h2
        simp [hba] at h2
      · have he : a = b := hconn a b (by simpa using hab) (by simpa using hba)
        subst he
        rw [lexLt] at h1 h2
        simp only [hab, Bool.false_eq_true, if_false] at h1 h2
        rw [lexLt_conn lt hconn as bs h1 h2]

/-- Lexicographic transitivity, given irreflexivity, transitivity and
connectivity of the element comparison. -/
theorem lexLt_trans (lt : α → α → Bool)
    (hirr : ∀ a, lt a a = false)
    (htr : ∀ a b c, lt a b = true → lt b c = true → lt a c = true)
    (hconn : ∀ a b, lt a b = false → lt b a = false → a = b) :
    ∀ l1 l2 l3, lexLt lt l1 l2 = true → lexLt lt l2 l3 = true → lexLt lt l1 l3 = true
  | [], [], _, h12, _ => by simp [lexLt] at h12
  | [], _ :: _, [], _, h23 => by simp [lexLt] at h23
  | [], _ :: _, _ :: _, _, _ => by simp [lexLt]
  | _ :: _, [], _, h12, _ => by simp [lexLt] at h12
  | _ :: _, _ :: _, [], _, h23 => by simp [lexLt] at h23
  | a :: as, b :: bs, c :: cs, h12, h23 => by
    rw [lexLt] at h12 h23 ⊢
    by_cases hab : lt a b = true
    · by_cases hbc : lt b c = true
      · simp [htr a b c hab hbc]
      · by_cases hcb : lt c b = true
        · simp [hbc, hcb] at h23
        · have he : b = c := hconn b c (by simpa using hbc) (by simpa using hcb)
          subst he
          simp [hab]
    · by_cases hba : lt b a = true
      · simp [hab, hba] at h12
      · have he : a = b := hconn a b (by simpa using hab) (by simpa using hba)
        subst he
        simp only [hirr a, Bool.false_eq_true, if_false] at h12
        by_cases hac : lt a c = true
        · simp [hac]
        · by_cases hca : lt c a = true
          · simp [hac, hca] at h23
          · have he2 : a = c := hconn a c (by simpa using hac) (by simpa using hca)
            subst he2
            simp only [hirr a, Bool.false_eq_true, if_false] at h23 ⊢
            exact lexLt_trans lt hirr htr hconn as bs cs h12 h23

/-- Strings never compare strictly below themselves. -/
theorem strLt_irrefl (s : String) : strLt s s = false :=
  lexLt_irrefl charLt charLt_irrefl s.data

/-- Strict string comparison is transitive. -/
theorem strLt_trans (s t u : String) :
    strLt s t = true → strLt t u = true → strLt s u = true :=
  lexLt_trans charLt charLt_irrefl charLt_trans charLt_conn s.data t.data u.data

/-- Strings below each other in neither direction are equal. -/
theorem strLt_conn (s t : String) :
    strLt s t = false → strLt t s = false → s = t := by
  intro h1 h2
  have h := lexLt_conn charLt charLt_conn s.data t.data h1 h2
  cases s
  cases t
  exact congrArg String.mk h

/-- Paths never compare strictly below themselves. -/
theorem pathLt_irrefl (p : List String) : pathLt p p = false :=
  lexLt_irrefl strLt strLt_irrefl p

/-- Strict path comparison is transitive. -/
theorem pathLt_trans (p q r : List String) :
    pathLt p q = true → pathLt q r = true → pathLt p r = true :=
  lexLt_trans strLt strLt_irrefl strLt_trans strLt_conn p q r

/-- Paths below each other in neither direction are equal. -/
theorem pathLt_conn (p q : List String) :
    pathLt p q = false → pathLt q p = false → p = q :=
  lexLt_conn strLt strLt_conn p q

/-- The non-strict path order is total. -/
theorem pathLe_total (p q : List String) : pathLe p q = true ∨ pathLe q p = true := by
  by_cases h : pathLt q p = true
  · right
    rw [pathLe]
    by_cases h2 : pathLt p q = true
    · have hqq := pathLt_trans q p q h h2
      rw [pathLt_irrefl] at hqq
      cases hqq
    · simp only [Bool.not_eq_true] at h2
      simp [h2]
  · left
    rw [pathLe]
    simp only [Bool.not_eq_true] at h
    simp [h]

/-- The non-strict path order is transitive. -/
theorem pathLe_trans (p q r : List String) :
    pathLe p q = true → pathLe q r = true → pathLe p r = true := by
  rw [pathLe, pathLe, pathLe]
  simp only [Bool.not_eq_true']
  intro h1 h2
  by_cases h3 : pathLt r p = true
  · by_cases h4 : pathLt q r = true
    · have := pathLt_trans q r p h4 h3
      rw [h1] at this
      cases this
    · have he : q = r := pathLt_conn q r (by simpa using h4) h2
      subst he
      rw [h1] at h3
      cases h3
  · simpa using h3

/-- The non-strict path order is antisymmetric. -/
theorem pathLe_antisymm (p q : List String) :
    pathLe p q = true → pathLe q p = true → p = q := by
  rw [pathLe, pathLe]
  simp only [Bool.not_eq_true']
  intro h1 h2
  exact pathLt_conn p q h2 h1

/-- The archive sorting relation is total. -/
theorem zipOrder_total : ∀ a b : FsEntry, zipOrder a b ∨ zipOrder b a :=
  fun a b => pathLe_total a.path b.path

/-- The archive sorting relation is transitive. -/
theorem zipOrder_trans : ∀ a b c : FsEntry, zipOrder a b → zipOrder b c → zipOrder a c :=
  fun a b c => pathLe_trans a.path b.path c.path

/-- The archive entry list is a permutation of the file paths of the
listing: exactly the regular files survive, under their relative paths. -/
theorem createZip_perm (entries : List FsEntry) :
    (create_zip_file entries).Perm
      ((entries.filter (fun e => e.isFile)).map (fun e => e.path)) := by
  unfold create_zip_file
  exact List.Perm.map (fun e => e.path)
    (List.Perm.filter (fun e => e.isFile) (List.perm_insertionSort zipOrder entries))

/-- The archive entry list is sorted in the path order. -/
theorem createZip_sorted (entries : List FsEntry) :
    (create_zip_file entries).Pairwise (fun p q => pathLe p q = true) := by
  haveI : IsTotal FsEntry zipOrder := ⟨zipOrder_total⟩
  haveI : IsTrans FsEntry zipOrder := ⟨zipOrder_trans⟩
  have h1 : List.Sorted zipOrder (entries.insertionSort zipOrder) :=
    List.sorted_insertionSort zipOrder entries
  have h2 := h1.filter (fun e => e.isFile)
  exact List.pairwise_map.mpr h2

/-! Section: Claim C7: the Result Archiver -/

/-- C7: the archive holds exactly the regular files of the listing under
their relative paths, in sorted path order; the result is invariant under
permutations of the filesystem enumeration; and the `a/1.pdf`, `b/2.pdf`
example yields exactly those two entries. -/
theorem c7_archiver (entries : List FsEntry) :
    (create_zip_file entries).Perm
      ((entries.filter (fun e => e.isFile)).map (fun e => e.path)) ∧
    (create_zip_file entries).Pairwise (fun p q => pathLe p q = true) ∧
    (∀ entries2, entries.Perm entries2 →
      create_zip_file entries = create_zip_file entries2) ∧
    create_zip_file
        [⟨["b", "2.pdf"], true⟩, ⟨["b"], false⟩, ⟨["a", "1.pdf"], true⟩,
         ⟨["a"], false⟩] =
      [["a", "1.pdf"], ["b", "2.pdf"]] := by
  refine ⟨createZip_perm entries, createZip_sorted entries, ?_, by decide⟩
  intro entries2 hp
  haveI : IsAntisymm (List String) (fun p q => pathLe p q = true) := ⟨pathLe_antisymm⟩
  have hperm : (create_zip_file entries).Perm (create_zip_file entries2) :=
    ((createZip_perm entries).trans
      (List.Perm.map (fun e => e.path)
        (List.Perm.filter (fun e => e.isFile) hp))).trans
      (createZip_perm entries2).symm
  exact List.eq_of_perm_of_sorted hperm (createZip_sorted entries)
    (createZip_sorted entries2)

/-- C7 witness: two enumeration orders of the same listing produce the
same archive entry list. -/
theorem c7_archiver_witness :
    create_zip_file
        [⟨["a"], false⟩, ⟨["a", "1.pdf"], true⟩, ⟨["b", "2.pdf"], true⟩,
         ⟨["b"], false⟩] =
      create_zip_file
        [⟨["b", "2.pdf"], true⟩, ⟨["b"], false⟩, ⟨["a", "1.pdf"], true⟩,
         ⟨["a"], false⟩] := by
  have h := c7_archiver
    [⟨["a"], false⟩, ⟨["a", "1.pdf"], true⟩, ⟨["b", "2.pdf"], true⟩, ⟨["b"], false⟩]
  exact h.2.2.1 _ (by decide)

/-! Section: Claim C8: slugification -/

/-- Key equivalence behind the slugification rule: after the
underscore-collapsing pass, replacing each maximal bad run by one
underscore agrees with replacing every single bad character by an
underscore, in every combination of scanner states that the two pipelines
can reach together. -/
theorem collapse_squash_agree :
    ∀ l : List Char,
      collapseAux true (squashAux true l) =
          collapseAux true (l.map (fun c => if keepChar c then c else '_')) ∧
      collapseAux true (squashAux false l) =
          collapseAux true (l.map (fun c => if keepChar c then c else '_')) ∧
      collapseAux false (squashAux false l) =
          collapseAux false (l.map (fun c => if keepChar c then c else '_'))
  | [] => ⟨rfl, rfl, rfl⟩
  | c :: cs => by
    obtain ⟨ih1, ih2, ih3⟩ := collapse_squash_agree cs
    by_cases hk : keepChar c = true
    · by_cases hu : c = '_'
      · subst hu
        refine ⟨?_, ?_, ?_⟩ <;>
          simp [squashAux, collapseAux, hk, ih1, ih2, ih3]
      · refine ⟨?_, ?_, ?_⟩ <;>
          simp [squashAux, collapseAux, hk, hu, ih3]
    · have hu : ¬c = '_' := by
        intro h
        subst h
        simp [keepChar, isWordChar] at hk
      refine ⟨?_, ?_, ?_⟩ <;>
        simp [squashAux, collapseAux, hk, hu, ih1, ih2]

/-- C8: `slugify` realises the specified pipeline — trim and lowercase,
turn each maximal run of non-word/non-hyphen characters into a single
underscore, collapse repeated underscores, strip boundary underscores,
and fall back to `"unknown"` on an empty result — together with concrete
instances of each rule. -/
theorem c8_slugify (s : String) :
    slugify s = slugify_spec s ∧
    slugify "  Acme & Co.  " = "acme_co" ∧
    slugify "acme---co" = "acme---co" ∧
    slugify "???" = "unknown" ∧
    slugify "" = "unknown" ∧
    slugify "a__b" = "a_b" := by
  refine ⟨?_, by decide, by decide, by decide, by decide, by decide⟩
  rw [slugify, slugify_spec,
    (collapse_squash_agree (lowerStr (pyStrip s)).data).2.2]

end Harvest
